import Mathlib

/-!
Verification of the freud PMFT specification against the repository.

The repository provides, under src/, the thread-control module
src/freud/parallel.py, the Voronoi wrapper src/py/freud/voronoi.py, and the
PMFT test suite src/tests/test_pmft.py.  The PMFT binning engine itself
(freud.pmft and its C++ backend) is not part of the provided sources, so its
data model and operations are modelled from the specification (spec.md) and
checked against the concrete behaviours recorded in the test suite.  The
thread-control claims are settled directly against src/freud/parallel.py.
-/

set_option linter.unusedVariables false

/-! ## Part 1: the thread-control module, translated from src/freud/parallel.py -/

/-- A token of the tiny regular-expression language needed for the two
patterns of src/freud/parallel.py line 10: a literal character, or a
Kleene star of a single character. -/
inductive RTok where
  | lit (c : Char)
  | star (c : Char)
deriving DecidableEq

/-- Translated from the semantics of Python re.match: does the token list
match some prefix of the string (given as a list of characters)?
re.match anchors at the start of the string only, so trailing characters
after the match are ignored.  A star token either matches the empty string
(continue with the remaining tokens) or consumes one occurrence of its
character and stays. -/
def reMatch : List RTok → List Char → Bool
  | [], _ => true
  | RTok.lit _ :: _, [] => false
  | RTok.lit c :: ts, a :: s => c == a && reMatch ts s
  | RTok.star _ :: ts, [] => reMatch ts []
  | RTok.star c :: ts, a :: s =>
      reMatch ts (a :: s) || (c == a && reMatch (RTok.star c :: ts) s)
termination_by ts s => (s.length, ts.length)

/-- The pattern "flux*" of src/freud/parallel.py line 10. -/
def fluxToks : List RTok := [RTok.lit 'f', RTok.lit 'l', RTok.lit 'u', RTok.star 'x']

/-- The pattern "nyx*" of src/freud/parallel.py line 10. -/
def nyxToks : List RTok := [RTok.lit 'n', RTok.lit 'y', RTok.star 'x']

/-- Translated from src/freud/parallel.py lines 10-11: the module-level
side effect run at module load.  If re.match("flux*", platform.node()) or
re.match("nyx*", platform.node()) succeeds, _freud.setNumThreads(1) is
called; otherwise the process-wide thread count is left unchanged.  The
node name and the current thread count are passed explicitly. -/
def parallelImportThreads (node : List Char) (current : ℕ) : ℕ :=
  if reMatch fluxToks node || reMatch nyxToks node then 1 else current

/-- Translated from src/freud/parallel.py: the NumThreads context manager.
restore_N is _freud._numThreads as read in __init__; N is the requested
worker count. -/
structure NumThreads where
  restore_N : ℕ
  N : ℕ
deriving DecidableEq

/-- NumThreads.__init__(self, N): records the current process-wide thread
count (_freud._numThreads) in restore_N. -/
def NumThreads.init (current N : ℕ) : NumThreads := ⟨current, N⟩

/-- NumThreads.__enter__: calls _freud.setNumThreads(self.N), so the new
process-wide thread count is N, whatever it was before. -/
def NumThreads.enter (nt : NumThreads) (_g : ℕ) : ℕ := nt.N

/-- NumThreads.__exit__: calls _freud.setNumThreads(self.restore_N),
overwriting whatever thread count the body left behind.  Python calls
__exit__ both on normal completion and when the body raised. -/
def NumThreads.exit (nt : NumThreads) (_g : ℕ) : ℕ := nt.restore_N

/-- The with-statement semantics of the NumThreads scope, state-passing
style: the process-wide thread count is the explicit state.  The body
returns a normal result or an exception, together with the thread count it
left behind; __exit__ runs in both cases, and an exception is re-raised
afterwards (NumThreads.__exit__ returns None, which is falsy). -/
def withNumThreads {ε α : Type} (current N : ℕ) (body : ℕ → Except ε α × ℕ) :
    Except ε α × ℕ :=
  let nt := NumThreads.init current N
  let res := body (nt.enter current)
  (res.1, nt.exit res.2)

/-! ### Claims C9 and C10 -/

lemma reMatch_nil_left (s : List Char) : reMatch [] s = true := by
  cases s <;> simp [reMatch]

lemma reMatch_star_singleton (c : Char) (s : List Char) :
    reMatch [RTok.star c] s = true := by
  cases s with
  | nil => simp [reMatch, reMatch_nil_left]
  | cons a t => simp [reMatch, reMatch_nil_left]

lemma reMatch_flux_eq (node : List Char) :
    reMatch fluxToks node = List.isPrefixOf ['f', 'l', 'u'] node := by
  match node with
  | [] => simp [fluxToks, reMatch, List.isPrefixOf]
  | [a] => simp [fluxToks, reMatch, List.isPrefixOf]
  | [a, b] => simp [fluxToks, reMatch, List.isPrefixOf]
  | a :: b :: c :: t =>
      simp only [fluxToks, reMatch, List.isPrefixOf, reMatch_star_singleton,
        Bool.and_true]

lemma reMatch_nyx_eq (node : List Char) :
    reMatch nyxToks node = List.isPrefixOf ['n', 'y'] node := by
  match node with
  | [] => simp [nyxToks, reMatch, List.isPrefixOf]
  | [a] => simp [nyxToks, reMatch, List.isPrefixOf]
  | a :: b :: t =>
      simp only [nyxToks, reMatch, List.isPrefixOf, reMatch_star_singleton,
        Bool.and_true]

lemma isPrefixOf_iff_exists_rep {pre node : List Char} :
    List.isPrefixOf pre node = true ↔
      ∃ k rest, node = pre ++ List.replicate k 'x' ++ rest := by
  rw [List.isPrefixOf_iff_prefix]
  constructor
  · rintro ⟨t, ht⟩
    exact ⟨0, t, by simp [ht.symm]⟩
  · rintro ⟨k, rest, hrep⟩
    exact ⟨List.replicate k 'x' ++ rest, by simp [hrep]⟩

/-- C10: importing freud.parallel sets the process-wide thread count to 1
exactly on hosts whose node name matches "flux*" or "nyx*", i.e. begins
with "flu", or with "ny", followed by zero or more x characters (and, since
re.match only anchors at the start, then by anything); on every other host
the thread count is left unchanged. -/
theorem parallel_import_sets_threads_on_flux_nyx (node : List Char) (current : ℕ) :
    parallelImportThreads node current =
      (if (List.isPrefixOf ['f', 'l', 'u'] node || List.isPrefixOf ['n', 'y'] node)
        then 1 else current)
    ∧ (reMatch fluxToks node = true ↔
        ∃ k rest, node = ['f', 'l', 'u'] ++ List.replicate k 'x' ++ rest)
    ∧ (reMatch nyxToks node = true ↔
        ∃ k rest, node = ['n', 'y'] ++ List.replicate k 'x' ++ rest) := by
  refine ⟨?_, ?_, ?_⟩
  · rw [parallelImportThreads, reMatch_flux_eq, reMatch_nyx_eq]
  · rw [reMatch_flux_eq]; exact isPrefixOf_iff_exists_rep
  · rw [reMatch_nyx_eq]; exact isPrefixOf_iff_exists_rep

/-- C9: leaving a NumThreads scope restores the thread count recorded at
initialization, and this happens even when the body ended in an
exception, which is then re-raised with the thread count restored. -/
theorem numthreads_scope_restores {ε α : Type} (current N : ℕ)
    (body : ℕ → Except ε α × ℕ) :
    (withNumThreads current N body).2 = current
    ∧ (∀ e : ε, (body ((NumThreads.init current N).enter current)).1 = Except.error e →
        withNumThreads current N body = (Except.error e, current)) := by
  refine ⟨rfl, fun e he => ?_⟩
  simp only [withNumThreads]
  exact Prod.ext_iff.mpr ⟨he, rfl⟩

/-- Witness for C9 at a concrete scope: prior count 5, requested count 2,
a body that changes the thread count to 7 and then raises. -/
theorem numthreads_scope_restores_witness :
    (withNumThreads 5 2 (fun _ => ((Except.error 3 : Except ℕ ℕ), 7))).2 = 5
    ∧ withNumThreads 5 2 (fun _ => ((Except.error 3 : Except ℕ ℕ), 7)) =
        (Except.error 3, 5) :=
  ⟨(numthreads_scope_restores 5 2 _).1,
   (numthreads_scope_restores 5 2 _).2 3 rfl⟩

/-! ## Part 2: the PMFT binning engine, modelled from the specification

The engine itself (freud.pmft and its C++ backend) is not among the provided
sources; the definitions below follow spec.md sections 3-6 and are checked
against the behaviours recorded in src/tests/test_pmft.py.  Real-valued
quantities are embedded as exact rationals; the transcendental constants of
the normalization (powers of pi) are carried symbolically by PiTerm. -/

/-- A position or displacement vector with three rational components. -/
structure V3 where
  x : ℚ
  y : ℚ
  z : ℚ
deriving DecidableEq

def V3.add (a b : V3) : V3 := ⟨a.x + b.x, a.y + b.y, a.z + b.z⟩

def V3.sub (a b : V3) : V3 := ⟨a.x - b.x, a.y - b.y, a.z - b.z⟩

def V3.normSq (a : V3) : ℚ := a.x ^ 2 + a.y ^ 2 + a.z ^ 2

/-- Modelled from the spec (section 3, Box): an orthorhombic periodic box
with per-axis lengths and a 2D flag.  The lattice-vector generality of the
real box collaborator is not needed by any claim. -/
structure Box where
  Lx : ℚ
  Ly : ℚ
  Lz : ℚ
  is2D : Bool
deriving DecidableEq

/-- Wrap one coordinate into the minimum-image interval [-L/2, L/2). -/
def wrapCoord (L x : ℚ) : ℚ := x - L * ((⌊x / L + 1 / 2⌋ : ℤ) : ℚ)

/-- Modelled from the spec (section 6, Periodic Geometry collaborator):
minimum-image wrap of a displacement.  A 2D box leaves the out-of-plane
component untouched. -/
def Box.wrap (b : Box) (v : V3) : V3 :=
  ⟨wrapCoord b.Lx v.x, wrapCoord b.Ly v.y,
   if b.is2D then v.z else wrapCoord b.Lz v.z⟩

/-- Modelled from the spec (section 4.4): box volume, or area for a 2D box. -/
def Box.volume (b : Box) : ℚ := if b.is2D then b.Lx * b.Ly else b.Lx * b.Ly * b.Lz

/-- Modelled from the spec (section 4.1, Bin Grid): one axis of the grid,
with extent [lo, hi) uniformly subdivided into n bins. -/
structure Axis where
  lo : ℚ
  hi : ℚ
  n : ℕ
deriving DecidableEq

def Axis.width (a : Axis) : ℚ := (a.hi - a.lo) / a.n

def Axis.edge (a : Axis) (i : ℕ) : ℚ := a.lo + i * a.width

/-- Modelled from the spec (section 4.1): the center of a bin is the
midpoint of its two edges. -/
def Axis.center (a : Axis) (i : ℕ) : ℚ := (a.edge i + a.edge (i + 1)) / 2

/-- Modelled from the spec (section 4.1): digitization by
floor((value - lower_edge)/bin_width); a value outside [lo, hi) is reported
as out of range (none) rather than clamped. -/
def Axis.digitize (a : Axis) (v : ℚ) : Option ℕ :=
  if a.lo ≤ v ∧ v < a.hi then some ⌊(v - a.lo) / a.width⌋₊ else none

/-- Digitize a native-coordinate tuple along a list of axes; any
out-of-range coordinate (or arity mismatch) discards the tuple. -/
def digitizeAll : List Axis → List ℚ → Option (List ℕ)
  | [], [] => some []
  | a :: rest, v :: vs =>
      match a.digitize v, digitizeAll rest vs with
      | some i, some more => some (i :: more)
      | _, _ => none
  | _, _ => none

/-- Total number of bins of a grid. -/
def prodBins (axes : List Axis) : ℕ := (axes.map fun a => a.n).prod

/-- Row-major flattening of a multi-index. -/
def flatIndex : List Axis → List ℕ → ℕ
  | _ :: rest, i :: more => i * prodBins rest + flatIndex rest more
  | _, _ => 0

/-- The histogram accumulator (spec section 4.3), as an association list
from flattened bin index to accumulated weight; absent keys hold zero. -/
def histGet : List (ℕ × ℚ) → ℕ → ℚ
  | [], _ => 0
  | (k, v) :: t, i => if k = i then v else histGet t i

/-- accumulate(multi_index, weight): add the weight to one cell. -/
def histAdd : List (ℕ × ℚ) → ℕ → ℚ → List (ℕ × ℚ)
  | [], i, w => [(i, w)]
  | (k, v) :: t, i, w => if k = i then (k, v + w) :: t else (k, v) :: histAdd t i w

/-- A neighbor bond as produced by the Neighbor Enumerator (spec section 6):
query index, point index, and minimum-image wrapped displacement. -/
structure Bond where
  qi : ℕ
  pj : ℕ
  d : V3
deriving DecidableEq

/-- Modelled from the spec (section 6, Neighbor Enumerator, ball mode):
all ordered (query, point) pairs whose wrapped displacement
point - query_point lies within the cutoff, excluding i = j pairs when
exclude_ii is set (the two particle sets are the same object).  The cutoff
is given squared so the comparison is exact. -/
def ballQuery (box : Box) (qpts pts : List V3) (rMaxSq : ℚ) (excludeII : Bool) :
    List Bond :=
  (List.range qpts.length).flatMap fun i =>
    (List.range pts.length).filterMap fun j =>
      if excludeII = true ∧ i = j then none
      else
        let d := box.wrap (V3.sub (pts.getD j ⟨0, 0, 0⟩) (qpts.getD i ⟨0, 0, 0⟩))
        if V3.normSq d ≤ rMaxSq then some ⟨i, j, d⟩ else none

/-- Process one bond (spec section 4.5 steps 4-5): transform, digitize,
skip an out-of-range result, accumulate weight one otherwise. -/
def binOne (axes : List Axis) (tr : ℕ → ℕ → V3 → List ℚ) (b : Bond)
    (h : List (ℕ × ℚ)) : List (ℕ × ℚ) :=
  match digitizeAll axes (tr b.qi b.pj b.d) with
  | some multi => histAdd h (flatIndex axes multi) 1
  | none => h

/-- Bin one frame of bonds into the histogram (spec section 4.5 steps 4-5). -/
def binPairs (axes : List Axis) (tr : ℕ → ℕ → V3 → List ℚ) :
    List Bond → List (ℕ × ℚ) → List (ℕ × ℚ)
  | [], h => h
  | b :: bs, h => binPairs axes tr bs (binOne axes tr b h)

/-- A 2D orientation as the cosine/sine pair of its angle, so that rotation
by the inverse orientation is exact rational arithmetic. -/
structure Rot2 where
  c : ℚ
  s : ℚ
deriving DecidableEq

def Rot2.ident : Rot2 := ⟨1, 0⟩

/-- Modelled from the spec (section 4.2, XY): the native coordinates are the
displacement d = point - query_point expressed in the query particle's frame,
i.e. rotated by the inverse of the query particle's orientation. -/
def xyTransform (qOrient : List Rot2) (i : ℕ) (_j : ℕ) (d : V3) : List ℚ :=
  let r := qOrient.getD i Rot2.ident
  [r.c * d.x + r.s * d.y, r.c * d.y - r.s * d.x]

/-- A quaternion with rational components. -/
structure Quat where
  w : ℚ
  x : ℚ
  y : ℚ
  z : ℚ
deriving DecidableEq

def Quat.ident : Quat := ⟨1, 0, 0, 0⟩

def Quat.conj (q : Quat) : Quat := ⟨q.w, -q.x, -q.y, -q.z⟩

def Quat.mul (a b : Quat) : Quat :=
  ⟨a.w * b.w - a.x * b.x - a.y * b.y - a.z * b.z,
   a.w * b.x + a.x * b.w + a.y * b.z - a.z * b.y,
   a.w * b.y - a.x * b.z + a.y * b.w + a.z * b.x,
   a.w * b.z + a.x * b.y - a.y * b.x + a.z * b.w⟩

/-- Rotate a vector by a unit quaternion: the vector part of q v q*. -/
def Quat.rotate (q : Quat) (v : V3) : V3 :=
  let p := Quat.mul (Quat.mul q ⟨0, v.x, v.y, v.z⟩) (Quat.conj q)
  ⟨p.x, p.y, p.z⟩

/-- Modelled from the spec (section 4.2, XYZ): the displacement rotated
into the query particle's frame by the inverse-orientation (conjugate)
quaternion. -/
def xyzTransform (qOrient : List Quat) (i : ℕ) (_j : ℕ) (d : V3) : List ℚ :=
  let q := qOrient.getD i Quat.ident
  let r := Quat.rotate (Quat.conj q) d
  [r.x, r.y, r.z]

/-- A symbolic real of the form coeff * pi ^ piPow, enough to carry the
variant-specific angular normalization constants (2 pi for the planar
variants, 8 pi^2 for XYZ) exactly. -/
structure PiTerm where
  coeff : ℚ
  piPow : ℤ
deriving DecidableEq

def PiTerm.mul (a b : PiTerm) : PiTerm := ⟨a.coeff * b.coeff, a.piPow + b.piPow⟩

def PiTerm.div (a b : PiTerm) : PiTerm := ⟨a.coeff / b.coeff, a.piPow - b.piPow⟩

/-- A value of the PMFT field (spec section 3): +infinity for a bin that was
never observed, or the finite value -log(density) for an observed bin,
carried symbolically by its density argument. -/
inductive PmftVal where
  | infinity
  | negLog (density : PiTerm)
deriving DecidableEq

/-- Modelled from the spec (section 4.4, PMFT Normalizer): density =
count / (bin_volume * N_ref * N_query / box_volume) divided by the
variant-specific angular phase-space constant, and pmft = -log(density);
a bin with count == 0 yields +infinity directly instead of evaluating
log(0). -/
def pmftValue (count binVol boxVol : ℚ) (nRef nQuery : ℕ) (jac : PiTerm) : PmftVal :=
  if count = 0 then PmftVal.infinity
  else
    PmftVal.negLog
      (PiTerm.div ⟨count * boxVol / (binVol * (nRef : ℚ) * (nQuery : ℚ)), 0⟩ jac)

/-- Per-bin volume of a Cartesian/angular grid: the product of the per-axis
bin widths (spec section 4.1). -/
def binVolume (axes : List Axis) : ℚ := (axes.map Axis.width).prod

/-- The four PMFT variants (spec section 2). -/
inductive Variant where
  | r12
  | xy
  | xyt
  | xyz
deriving DecidableEq

/-- R12, XY and XYT are 2D-only; XYZ requires a 3D box (spec section 4.5). -/
def Variant.requires2D : Variant → Bool
  | .xyz => false
  | _ => true

/-- The state a successful compute() call leaves behind (spec section 4.5):
the accumulated histogram, the authoritative box, and the two set sizes
used by the Normalizer. -/
structure ComputedData where
  hist : List (ℕ × ℚ)
  box : Box
  nRef : ℕ
  nQuery : ℕ
deriving DecidableEq

/-- Modelled from the spec (sections 4.5 and 9): a PMFT engine instance.
state = none is the Ready state (constructed, nothing computed yet);
state = some _ is the Computed state. -/
structure Engine where
  axes : List Axis
  requires2D : Bool
  jac : PiTerm
  shift : V3
  state : Option ComputedData
deriving DecidableEq

/-- The error taxonomy needed by the claims (spec section 7): the
access-before-compute condition and the ValueError-class condition. -/
inductive PmftError where
  | attributeUnavailable
  | valueError
deriving DecidableEq

/-- bin_counts accessor: only valid in the Computed state (spec 4.5). -/
def Engine.binCounts (e : Engine) : Except PmftError (ℕ → ℚ) :=
  match e.state with
  | none => Except.error PmftError.attributeUnavailable
  | some c => Except.ok (histGet c.hist)

/-- box accessor: only valid in the Computed state (spec 4.5). -/
def Engine.box (e : Engine) : Except PmftError Box :=
  match e.state with
  | none => Except.error PmftError.attributeUnavailable
  | some c => Except.ok c.box

/-- pmft accessor: only valid in the Computed state; recomputed from the
current histogram on every access (spec section 3, Lifecycle). -/
def Engine.pmft (e : Engine) : Except PmftError (ℕ → PmftVal) :=
  match e.state with
  | none => Except.error PmftError.attributeUnavailable
  | some c =>
      Except.ok fun idx =>
        pmftValue (histGet c.hist idx) (binVolume e.axes) c.box.volume
          c.nRef c.nQuery e.jac

/-- nbins accessor: per-axis bin counts. -/
def Engine.nbins (e : Engine) : List ℕ := e.axes.map fun a => a.n

/-- Convenience view of bin_counts after a successful compute. -/
def Engine.countAt (e : Engine) (i : ℕ) : ℚ :=
  match e.binCounts with
  | Except.ok f => f i
  | Except.error _ => 0

/-- Convenience view of pmft after a successful compute. -/
def Engine.pmftAt (e : Engine) (i : ℕ) : PmftVal :=
  match e.pmft with
  | Except.ok f => f i
  | Except.error _ => PmftVal.infinity

/-- Modelled from the spec (section 4.5 steps 1-2): input validation.  A
2D-only variant requires a 2D box and in-plane points; XYZ requires a 3D
box.  An accumulating (reset = false) call must present the same box the
engine recorded. -/
def Engine.validate (e : Engine) (box : Box) (points qpts : List V3)
    (reset : Bool) : Bool :=
  (if e.requires2D then
    box.is2D && points.all (fun p => p.z == 0) && qpts.all (fun p => p.z == 0)
   else !box.is2D)
  && (if reset then true
      else match e.state with
        | some c => c.box == box
        | none => true)

/-- Modelled from the spec (section 4.5): compute().  The neighbor bonds
come from the Neighbor Enumerator collaborator; the coordinate transform is
the variant's transform capability.  On validation failure the call fails
with the ValueError-class condition and the engine is unchanged; otherwise
the bonds are transformed, digitized and accumulated (onto the cleared
histogram when reset is set, onto the existing one otherwise) and the
engine transitions to the Computed state. -/
def Engine.compute (e : Engine) (box : Box) (points qpts : List V3)
    (tr : ℕ → ℕ → V3 → List ℚ) (bonds : List Bond) (reset : Bool) :
    Except PmftError Engine :=
  if e.validate box points qpts reset then
    let h0 : List (ℕ × ℚ) :=
      if reset then []
      else match e.state with
        | some c => c.hist
        | none => []
    Except.ok
      { e with
        state :=
          some ⟨binPairs e.axes tr bonds h0, box, points.length, qpts.length⟩ }
  else Except.error PmftError.valueError

/-- compute() with the ball-mode Neighbor Enumerator; the engine's shift
vector is applied to the query (reference) particles before the neighbor
query (spec section 6, XYZ shift_vector). -/
def Engine.computeBall (e : Engine) (box : Box) (points qpts : List V3)
    (tr : ℕ → ℕ → V3 → List ℚ) (rMaxSq : ℚ) (excludeII reset : Bool) :
    Except PmftError Engine :=
  e.compute box points qpts tr
    (ballQuery box (qpts.map fun q => V3.add q e.shift) points rMaxSq excludeII)
    reset

/-- A symmetric Cartesian axis [-maxv, maxv) with n bins. -/
def mkAxisSym (maxv : ℚ) (n : ℕ) : Axis := ⟨-maxv, maxv, n⟩

/-- Modelled from the spec (section 6): the PMFTXY engine constructor.  The
angular phase-space constant of the planar normalization is 2 pi. -/
def PMFTXY (maxX maxY : ℚ) (nx ny : ℕ) : Engine :=
  { axes := [mkAxisSym maxX nx, mkAxisSym maxY ny]
    requires2D := true
    jac := ⟨2, 1⟩
    shift := ⟨0, 0, 0⟩
    state := none }

/-- Modelled from the spec (section 6): the PMFTXYZ engine constructor with
its optional shift vector.  The orientational phase-space constant is
8 pi^2 (spec section 4.4). -/
def PMFTXYZ (maxX maxY maxZ : ℚ) (nx ny nz : ℕ) (shiftvec : V3) : Engine :=
  { axes := [mkAxisSym maxX nx, mkAxisSym maxY ny, mkAxisSym maxZ nz]
    requires2D := false
    jac := ⟨8, 2⟩
    shift := shiftvec
    state := none }

/-- Modelled from the spec (section 6): the PMFTR12 engine constructor.
The angular extent 2 pi of the two angle axes and the variant's angular
normalization constant enter as parameters, since the embedding carries
exact rationals and symbolic pi powers. -/
def PMFTR12 (twoPi maxR : ℚ) (nr nt1 nt2 : ℕ) (jac : PiTerm) : Engine :=
  { axes := [⟨0, maxR, nr⟩, ⟨0, twoPi, nt1⟩, ⟨0, twoPi, nt2⟩]
    requires2D := true
    jac := jac
    shift := ⟨0, 0, 0⟩
    state := none }

/-- Modelled from the spec (section 6): the PMFTXYT engine constructor,
with the angular extent passed as for PMFTR12. -/
def PMFTXYT (twoPi maxX maxY : ℚ) (nx ny nt : ℕ) (jac : PiTerm) : Engine :=
  { axes := [mkAxisSym maxX nx, mkAxisSym maxY ny, ⟨0, twoPi, nt⟩]
    requires2D := true
    jac := jac
    shift := ⟨0, 0, 0⟩
    state := none }

/-! ### Basic histogram and grid lemmas -/

lemma histGet_histAdd (h : List (ℕ × ℚ)) (k i : ℕ) (w : ℚ) :
    histGet (histAdd h k w) i = histGet h i + if i = k then w else 0 := by
  induction h with
  | nil =>
      simp only [histAdd, histGet]
      by_cases hik : i = k
      · subst hik; simp
      · have hki : ¬k = i := fun hh => hik hh.symm
        rw [if_neg hki, if_neg hik, add_zero]
  | cons kv t ih =>
      obtain ⟨k', v⟩ := kv
      by_cases hk : k' = k
      · subst hk
        simp only [histAdd, if_pos rfl, histGet]
        by_cases hik : k' = i
        · rw [if_pos hik, if_pos hik, if_pos hik.symm]
        · have hik' : ¬i = k' := fun hh => hik hh.symm
          rw [if_neg hik, if_neg hik, if_neg hik', add_zero]
      · simp only [histAdd, if_neg hk, histGet]
        by_cases hik : k' = i
        · have hik2 : ¬i = k := fun hh => hk (hik.trans hh)
          rw [if_pos hik, if_pos hik, if_neg hik2, add_zero]
        · rw [if_neg hik, if_neg hik, ih]

lemma sum_range_histAdd (M k : ℕ) (hk : k < M) (h : List (ℕ × ℚ)) (w : ℚ) :
    ∑ i ∈ Finset.range M, histGet (histAdd h k w) i
      = (∑ i ∈ Finset.range M, histGet h i) + w := by
  simp only [histGet_histAdd]
  rw [Finset.sum_add_distrib]
  congr 1
  rw [Finset.sum_ite_eq' (Finset.range M) k fun _ => w]
  simp [Finset.mem_range, hk]

/-- The configuration validity of a grid (spec section 7(a): invalid bin
counts or non-positive extents fail at construction, so a live engine's
axes always satisfy this). -/
def axesOK (axes : List Axis) : Prop :=
  ∀ ax ∈ axes, 0 < ax.n ∧ ax.lo < ax.hi

lemma Axis.digitize_lt {a : Axis} {v : ℚ} {i : ℕ}
    (hn : 0 < a.n) (hlohi : a.lo < a.hi) (h : a.digitize v = some i) :
    i < a.n := by
  unfold Axis.digitize at h
  split at h
  · next hin =>
      obtain ⟨hlo, hhi⟩ := hin
      injection h with h
      subst h
      have hnq : (0 : ℚ) < (a.n : ℚ) := by exact_mod_cast hn
      have hw : 0 < a.width := div_pos (sub_pos.mpr hlohi) hnq
      have harg : (v - a.lo) / a.width < a.n := by
        rw [div_lt_iff₀ hw, Axis.width, mul_div_cancel₀ _ (ne_of_gt hnq)]
        exact sub_lt_sub_right hhi a.lo
      exact Nat.floor_lt (div_nonneg (sub_nonneg.mpr hlo) hw.le) |>.mpr harg
  · exact absurd h (by simp)

lemma prodBins_cons (a : Axis) (rest : List Axis) :
    prodBins (a :: rest) = a.n * prodBins rest := by
  simp [prodBins]

lemma digitizeAll_flat_lt (axes : List Axis) (coords : List ℚ) (multi : List ℕ)
    (hok : axesOK axes) (h : digitizeAll axes coords = some multi) :
    flatIndex axes multi < prodBins axes := by
  induction axes generalizing coords multi with
  | nil =>
      cases coords with
      | nil =>
          simp only [digitizeAll, Option.some.injEq] at h
          subst h
          simp [flatIndex, prodBins]
      | cons v vs => simp [digitizeAll] at h
  | cons a rest ih =>
      cases coords with
      | nil => simp [digitizeAll] at h
      | cons v vs =>
          simp only [digitizeAll] at h
          rcases hd : a.digitize v with _ | i <;> rw [hd] at h
          · exact absurd h (by simp)
          · rcases hrest : digitizeAll rest vs with _ | more <;> rw [hrest] at h
            · exact absurd h (by simp)
            · injection h with h
              subst h
              have h1 : i < a.n :=
                Axis.digitize_lt (hok a (by simp)).1 (hok a (by simp)).2 hd
              have h2 : flatIndex rest more < prodBins rest :=
                ih vs more (fun ax hax => hok ax (List.mem_cons_of_mem a hax)) hrest
              simp only [flatIndex, prodBins_cons]
              calc i * prodBins rest + flatIndex rest more
                  < i * prodBins rest + prodBins rest := by omega
                _ = (i + 1) * prodBins rest := by ring
                _ ≤ a.n * prodBins rest := Nat.mul_le_mul_right _ h1

lemma binOne_none {axes : List Axis} {tr : ℕ → ℕ → V3 → List ℚ} {b : Bond}
    (h : List (ℕ × ℚ)) (hd : digitizeAll axes (tr b.qi b.pj b.d) = none) :
    binOne axes tr b h = h := by
  simp [binOne, hd]

lemma binOne_some {axes : List Axis} {tr : ℕ → ℕ → V3 → List ℚ} {b : Bond}
    (h : List (ℕ × ℚ)) (multi : List ℕ)
    (hd : digitizeAll axes (tr b.qi b.pj b.d) = some multi) :
    binOne axes tr b h = histAdd h (flatIndex axes multi) 1 := by
  simp [binOne, hd]

lemma sum_range_binPairs (axes : List Axis) (tr : ℕ → ℕ → V3 → List ℚ)
    (bonds : List Bond) (h : List (ℕ × ℚ)) (hok : axesOK axes) :
    ∑ i ∈ Finset.range (prodBins axes), histGet (binPairs axes tr bonds h) i
      = (∑ i ∈ Finset.range (prodBins axes), histGet h i)
        + (bonds.countP fun b => (digitizeAll axes (tr b.qi b.pj b.d)).isSome : ℕ) := by
  induction bonds generalizing h with
  | nil => simp [binPairs]
  | cons b bs ih =>
      show ∑ i ∈ Finset.range (prodBins axes),
          histGet (binPairs axes tr bs (binOne axes tr b h)) i = _
      rcases hd : digitizeAll axes (tr b.qi b.pj b.d) with _ | multi
      · rw [binOne_none h hd, ih]
        simp [List.countP_cons, hd]
      · rw [binOne_some h multi hd, ih,
          sum_range_histAdd _ _ (digitizeAll_flat_lt axes _ multi hok hd)]
        simp only [List.countP_cons, hd, Option.isSome_some]
        push_cast
        ring

/-! ### Claim C3: accessors are gated by the Computed state -/

/-- C3: on a freshly constructed engine of any variant, the bin_counts,
pmft and box accessors all fail with the access-before-compute condition;
after any successful compute() call, all three succeed. -/
theorem accessors_unavailable_until_compute :
    (∀ (mx my : ℚ) (nx ny : ℕ),
      (PMFTXY mx my nx ny).binCounts = Except.error PmftError.attributeUnavailable
      ∧ (PMFTXY mx my nx ny).pmft = Except.error PmftError.attributeUnavailable
      ∧ (PMFTXY mx my nx ny).box = Except.error PmftError.attributeUnavailable)
    ∧ (∀ (mx my mz : ℚ) (nx ny nz : ℕ) (sv : V3),
      (PMFTXYZ mx my mz nx ny nz sv).binCounts = Except.error PmftError.attributeUnavailable
      ∧ (PMFTXYZ mx my mz nx ny nz sv).pmft = Except.error PmftError.attributeUnavailable
      ∧ (PMFTXYZ mx my mz nx ny nz sv).box = Except.error PmftError.attributeUnavailable)
    ∧ (∀ (tp mr : ℚ) (nr nt1 nt2 : ℕ) (j : PiTerm),
      (PMFTR12 tp mr nr nt1 nt2 j).binCounts = Except.error PmftError.attributeUnavailable
      ∧ (PMFTR12 tp mr nr nt1 nt2 j).pmft = Except.error PmftError.attributeUnavailable
      ∧ (PMFTR12 tp mr nr nt1 nt2 j).box = Except.error PmftError.attributeUnavailable)
    ∧ (∀ (tp mx my : ℚ) (nx ny nt : ℕ) (j : PiTerm),
      (PMFTXYT tp mx my nx ny nt j).binCounts = Except.error PmftError.attributeUnavailable
      ∧ (PMFTXYT tp mx my nx ny nt j).pmft = Except.error PmftError.attributeUnavailable
      ∧ (PMFTXYT tp mx my nx ny nt j).box = Except.error PmftError.attributeUnavailable)
    ∧ (∀ (e : Engine) (box : Box) (pts qpts : List V3)
        (tr : ℕ → ℕ → V3 → List ℚ) (bonds : List Bond) (reset : Bool) (e' : Engine),
        e.compute box pts qpts tr bonds reset = Except.ok e' →
        (∃ f, e'.binCounts = Except.ok f) ∧ (∃ f, e'.pmft = Except.ok f)
        ∧ (∃ b, e'.box = Except.ok b)) := by
  refine ⟨fun _ _ _ _ => ⟨rfl, rfl, rfl⟩, fun _ _ _ _ _ _ _ => ⟨rfl, rfl, rfl⟩,
    fun _ _ _ _ _ _ => ⟨rfl, rfl, rfl⟩, fun _ _ _ _ _ _ _ => ⟨rfl, rfl, rfl⟩,
    fun e box pts qpts tr bonds reset e' h => ?_⟩
  rw [Engine.compute] at h
  split at h
  · injection h with h
    subst h
    exact ⟨⟨_, rfl⟩, ⟨_, rfl⟩, ⟨_, rfl⟩⟩
  · exact absurd h (by simp)

/-- Witness for C3: a fresh PMFTXY engine rejects the accessors, and after
one successful compute() on two in-plane points all three succeed. -/
theorem accessors_unavailable_until_compute_witness :
    ((PMFTXY 1 1 1 1).binCounts = Except.error PmftError.attributeUnavailable
      ∧ (PMFTXY 1 1 1 1).pmft = Except.error PmftError.attributeUnavailable
      ∧ (PMFTXY 1 1 1 1).box = Except.error PmftError.attributeUnavailable)
    ∧ ((∃ f, (Engine.mk [mkAxisSym 1 1, mkAxisSym 1 1] true ⟨2, 1⟩ ⟨0, 0, 0⟩
          (some ⟨[], ⟨2, 2, 0, true⟩, 0, 0⟩)).binCounts = Except.ok f)
      ∧ (∃ f, (Engine.mk [mkAxisSym 1 1, mkAxisSym 1 1] true ⟨2, 1⟩ ⟨0, 0, 0⟩
          (some ⟨[], ⟨2, 2, 0, true⟩, 0, 0⟩)).pmft = Except.ok f)
      ∧ (∃ b, (Engine.mk [mkAxisSym 1 1, mkAxisSym 1 1] true ⟨2, 1⟩ ⟨0, 0, 0⟩
          (some ⟨[], ⟨2, 2, 0, true⟩, 0, 0⟩)).box = Except.ok b)) :=
  ⟨(accessors_unavailable_until_compute.1 1 1 1 1),
   accessors_unavailable_until_compute.2.2.2.2 (PMFTXY 1 1 1 1) ⟨2, 2, 0, true⟩
     [] [] (fun _ _ _ => []) [] true _ rfl⟩

/-! ### Claim C4: box dimensionality validation -/

/-- C4: compute() fails with the ValueError-class condition whenever the
box dimensionality is incompatible with the variant: a non-2D box, or any
point or query point with nonzero out-of-plane coordinate, for the 2D-only
variants R12/XY/XYT, and a 2D box for XYZ. -/
theorem compute_rejects_dim_mismatch
    (v : Variant) (e : Engine) (box : Box) (pts qpts : List V3)
    (tr : ℕ → ℕ → V3 → List ℚ) (bonds : List Bond) (reset : Bool)
    (hv : e.requires2D = v.requires2D)
    (hbad : ((v = Variant.r12 ∨ v = Variant.xy ∨ v = Variant.xyt)
              ∧ (box.is2D = false ∨ (∃ p ∈ pts, p.z ≠ 0) ∨ (∃ p ∈ qpts, p.z ≠ 0)))
            ∨ (v = Variant.xyz ∧ box.is2D = true)) :
    e.compute box pts qpts tr bonds reset = Except.error PmftError.valueError := by
  have hval : e.validate box pts qpts reset = false := by
    rcases hbad with ⟨h2d, hgeo⟩ | ⟨hxyz, h2d⟩
    · have hreq : e.requires2D = true := by
        rcases h2d with h | h | h <;> simp [hv, h, Variant.requires2D]
      rw [Engine.validate, hreq, if_pos rfl]
      rcases hgeo with h | ⟨p, hp, hpz⟩ | ⟨p, hp, hpz⟩
      · simp [h]
      · have : pts.all (fun p => p.z == 0) = false :=
          List.all_eq_false.mpr ⟨p, hp, by simpa using hpz⟩
        simp [this]
      · have : qpts.all (fun p => p.z == 0) = false :=
          List.all_eq_false.mpr ⟨p, hp, by simpa using hpz⟩
        simp [this]
    · have hreq : e.requires2D = false := by simp [hv, hxyz, Variant.requires2D]
      rw [Engine.validate, hreq]
      simp [h2d]
  rw [Engine.compute, hval]
  simp

/-- Witness for C4: a cubic (3D) box handed to a PMFTXY engine is rejected
with the ValueError-class condition. -/
theorem compute_rejects_dim_mismatch_witness :
    (PMFTXY 1 1 2 2).compute ⟨10, 10, 10, false⟩ [⟨0, 0, 0⟩] [⟨0, 0, 0⟩]
        (fun _ _ _ => []) [] true = Except.error PmftError.valueError :=
  compute_rejects_dim_mismatch Variant.xy (PMFTXY 1 1 2 2) ⟨10, 10, 10, false⟩
    [⟨0, 0, 0⟩] [⟨0, 0, 0⟩] (fun _ _ _ => []) [] true rfl
    (Or.inl ⟨Or.inr (Or.inl rfl), Or.inl rfl⟩)

/-! ### Claim C7: bin centers and bin counts of every variant's grid -/

lemma Axis.center_closed (a : Axis) (i : ℕ) :
    a.center i = a.lo + ((i : ℚ) + 1 / 2) * (a.hi - a.lo) / a.n := by
  simp only [Axis.center, Axis.edge, Axis.width]
  push_cast
  ring

/-- The closed form of the bin centers claimed by the spec: for an axis
with n bins over extent [lo, hi), center i = lo + (i + 1/2) (hi - lo) / n. -/
def centersClosedForm (e : Engine) : Prop :=
  ∀ ax ∈ e.axes, ∀ i : ℕ, i < ax.n →
    ax.center i = ax.lo + ((i : ℚ) + 1 / 2) * (ax.hi - ax.lo) / ax.n

/-- C7: for every axis of every variant's grid, the bin centers follow the
uniform-subdivision midpoint formula and nbins reports the configured
per-axis bin counts. -/
theorem bin_centers_and_nbins (twoPi maxR maxX maxY maxZ : ℚ)
    (nr nt1 nt2 nx ny nz nt : ℕ) (jr jt : PiTerm) (sv : V3) :
    (centersClosedForm (PMFTR12 twoPi maxR nr nt1 nt2 jr)
      ∧ (PMFTR12 twoPi maxR nr nt1 nt2 jr).nbins = [nr, nt1, nt2])
    ∧ (centersClosedForm (PMFTXY maxX maxY nx ny)
      ∧ (PMFTXY maxX maxY nx ny).nbins = [nx, ny])
    ∧ (centersClosedForm (PMFTXYT twoPi maxX maxY nx ny nt jt)
      ∧ (PMFTXYT twoPi maxX maxY nx ny nt jt).nbins = [nx, ny, nt])
    ∧ (centersClosedForm (PMFTXYZ maxX maxY maxZ nx ny nz sv)
      ∧ (PMFTXYZ maxX maxY maxZ nx ny nz sv).nbins = [nx, ny, nz]) :=
  ⟨⟨fun ax _ i _ => Axis.center_closed ax i, rfl⟩,
   ⟨fun ax _ i _ => Axis.center_closed ax i, rfl⟩,
   ⟨fun ax _ i _ => Axis.center_closed ax i, rfl⟩,
   ⟨fun ax _ i _ => Axis.center_closed ax i, rfl⟩⟩

/-- Witness for C7: the radial axis of a PMFTR12 grid with max_r = 5 and
10 radial bins has its bin 3 centered at 0 + (3 + 1/2) * 5 / 10. -/
theorem bin_centers_and_nbins_witness :
    (⟨0, 5, 10⟩ : Axis).center 3 = 0 + ((3 : ℚ) + 1 / 2) * (5 - 0) / 10 :=
  (bin_centers_and_nbins 7 5 1 1 1 10 20 30 1 1 1 1 ⟨1, 0⟩ ⟨1, 0⟩ ⟨0, 0, 0⟩).1.1
    ⟨0, 5, 10⟩ (by simp [PMFTR12]) 3 (by norm_num)

/-! ### Claim C2: the pmft field of an empty bin is the explicit infinity -/

/-- C2: for any computed engine state with a valid configuration, the pmft
field is the explicit +infinity value exactly at the bins whose count is
zero, and every bin with a nonzero count carries a finite -log value of a
nonzero density.  The infinity is produced directly by the zero-count
branch of the Normalizer, never by evaluating log(0). -/
theorem pmft_infinite_iff_empty_bin
    (e : Engine) (c : ComputedData) (f : ℕ → PmftVal)
    (hstate : e.state = some c)
    (hbv : 0 < binVolume e.axes) (hvol : 0 < c.box.volume)
    (hr : 0 < c.nRef) (hq : 0 < c.nQuery) (hj : e.jac.coeff ≠ 0)
    (hf : e.pmft = Except.ok f) (i : ℕ) :
    (f i = PmftVal.infinity ↔ histGet c.hist i = 0)
    ∧ (histGet c.hist i ≠ 0 →
        ∃ d : PiTerm, f i = PmftVal.negLog d ∧ d.coeff ≠ 0) := by
  have hfi : f i = pmftValue (histGet c.hist i) (binVolume e.axes) c.box.volume
      c.nRef c.nQuery e.jac := by
    rw [Engine.pmft, hstate] at hf
    injection hf with hf
    exact (congrFun hf.symm i)
  by_cases hc : histGet c.hist i = 0
  · rw [hfi, pmftValue, if_pos hc]
    exact ⟨⟨fun _ => hc, fun _ => rfl⟩, fun hne => absurd hc hne⟩
  · rw [hfi, pmftValue, if_neg hc]
    refine ⟨⟨fun h => absurd h (by simp), fun h => absurd h hc⟩, fun _ => ⟨_, rfl, ?_⟩⟩
    simp only [PiTerm.div]
    apply div_ne_zero
    · apply div_ne_zero (mul_ne_zero hc (ne_of_gt hvol))
      exact mul_ne_zero
        (mul_ne_zero (ne_of_gt hbv) (Nat.cast_ne_zero.mpr hr.ne'))
        (Nat.cast_ne_zero.mpr hq.ne')
    · exact hj

/-- Witness for C2: a computed PMFTXY-shaped state whose histogram holds a
single count in bin 0: bin 0 gets a finite value, bin 1 gets infinity. -/
theorem pmft_infinite_iff_empty_bin_witness :
    ((fun idx => pmftValue (histGet [(0, 1)] idx) (binVolume [mkAxisSym 1 1])
        (Box.volume ⟨2, 2, 0, true⟩) 1 1 ⟨2, 1⟩) 0 = PmftVal.infinity
      ↔ histGet [(0, 1)] 0 = 0)
    ∧ (histGet [(0, 1)] 0 ≠ 0 →
        ∃ d : PiTerm,
          (fun idx => pmftValue (histGet [(0, 1)] idx) (binVolume [mkAxisSym 1 1])
            (Box.volume ⟨2, 2, 0, true⟩) 1 1 ⟨2, 1⟩) 0 = PmftVal.negLog d
          ∧ d.coeff ≠ 0) :=
  pmft_infinite_iff_empty_bin
    ⟨[mkAxisSym 1 1], true, ⟨2, 1⟩, ⟨0, 0, 0⟩, some ⟨[(0, 1)], ⟨2, 2, 0, true⟩, 1, 1⟩⟩
    ⟨[(0, 1)], ⟨2, 2, 0, true⟩, 1, 1⟩ _ rfl
    (by norm_num [binVolume, mkAxisSym, Axis.width])
    (by norm_num [Box.volume]) one_pos one_pos (by norm_num) rfl 0

/-! ### Claim C1: total histogram mass equals the number of in-range pairs -/

lemma ballQuery_mem {box : Box} {qpts pts : List V3} {rMaxSq : ℚ}
    {excl : Bool} {b : Bond} (hb : b ∈ ballQuery box qpts pts rMaxSq excl) :
    ¬(excl = true ∧ b.qi = b.pj) := by
  simp only [ballQuery, List.mem_flatMap, List.mem_filterMap, List.mem_range] at hb
  obtain ⟨i, hi, j, hj, hbj⟩ := hb
  by_cases hcase : excl = true ∧ i = j
  · rw [if_pos hcase] at hbj
    exact absurd hbj (by simp)
  · rw [if_neg hcase] at hbj
    split at hbj
    · injection hbj with hbj
      subst hbj
      exact hcase
    · exact absurd hbj (by simp)

/-- C1: for a compute() call with reset = true over the bonds produced by
the ball-mode Neighbor Enumerator, the sum of bin_counts over all bins
equals the number of enumerated (query point, point) ordered pairs whose
transformed coordinates are in range of the grid; and, when exclude_ii is
set because the query set and the point set are the same object, the
enumerator never produces a self pair. -/
theorem sum_counts_eq_inrange_pairs
    (e : Engine) (box : Box) (pts qpts : List V3) (tr : ℕ → ℕ → V3 → List ℚ)
    (rMaxSq : ℚ) (excl : Bool) (e' : Engine)
    (hok : axesOK e.axes)
    (hc : e.computeBall box pts qpts tr rMaxSq excl true = Except.ok e') :
    (∑ i ∈ Finset.range (prodBins e.axes), e'.countAt i)
      = ((ballQuery box (qpts.map fun q => V3.add q e.shift) pts rMaxSq excl).countP
          (fun b => (digitizeAll e.axes (tr b.qi b.pj b.d)).isSome) : ℕ)
    ∧ (excl = true →
        ∀ b ∈ ballQuery box (qpts.map fun q => V3.add q e.shift) pts rMaxSq excl,
          b.qi ≠ b.pj) := by
  constructor
  · rw [Engine.computeBall, Engine.compute] at hc
    split at hc
    · injection hc with hc
      subst hc
      have hcount : ∀ i, (Engine.mk e.axes e.requires2D e.jac e.shift
          (some ⟨binPairs e.axes tr
            (ballQuery box (qpts.map fun q => V3.add q e.shift) pts rMaxSq excl)
            (if true then [] else match e.state with | some c => c.hist | none => []),
            box, pts.length, qpts.length⟩)).countAt i
          = histGet (binPairs e.axes tr
              (ballQuery box (qpts.map fun q => V3.add q e.shift) pts rMaxSq excl) []) i :=
        fun i => rfl
      calc ∑ i ∈ Finset.range (prodBins e.axes), _
          = ∑ i ∈ Finset.range (prodBins e.axes),
              histGet (binPairs e.axes tr
                (ballQuery box (qpts.map fun q => V3.add q e.shift) pts rMaxSq excl) []) i :=
            Finset.sum_congr rfl fun i _ => hcount i
        _ = _ := by
            rw [sum_range_binPairs _ _ _ _ hok]
            simp [histGet]
    · exact absurd hc (by simp)
  · intro hexcl b hb
    intro hqp
    exact ballQuery_mem hb ⟨hexcl, hqp⟩

/-- Witness for C1: one particle queried against itself with exclude_ii
set: the enumerator returns no pairs and the histogram mass is zero. -/
theorem sum_counts_eq_inrange_pairs_witness :
    (∑ i ∈ Finset.range (prodBins (PMFTXY 1 1 2 2).axes),
        (Engine.mk [mkAxisSym 1 2, mkAxisSym 1 2] true ⟨2, 1⟩ ⟨0, 0, 0⟩
          (some ⟨[], ⟨8, 8, 0, true⟩, 1, 1⟩)).countAt i)
      = ((ballQuery ⟨8, 8, 0, true⟩
            ([⟨0, 0, 0⟩].map fun q => V3.add q (PMFTXY 1 1 2 2).shift)
            [⟨0, 0, 0⟩] 4 true).countP
          (fun b => (digitizeAll (PMFTXY 1 1 2 2).axes
            (xyTransform [Rot2.ident] b.qi b.pj b.d)).isSome) : ℕ)
    ∧ (true = true →
        ∀ b ∈ ballQuery ⟨8, 8, 0, true⟩
            ([⟨0, 0, 0⟩].map fun q => V3.add q (PMFTXY 1 1 2 2).shift)
            [⟨0, 0, 0⟩] 4 true,
          b.qi ≠ b.pj) :=
  sum_counts_eq_inrange_pairs (PMFTXY 1 1 2 2) ⟨8, 8, 0, true⟩
    [⟨0, 0, 0⟩] [⟨0, 0, 0⟩] (xyTransform [Rot2.ident]) 4 true
    (Engine.mk [mkAxisSym 1 2, mkAxisSym 1 2] true ⟨2, 1⟩ ⟨0, 0, 0⟩
      (some ⟨[], ⟨8, 8, 0, true⟩, 1, 1⟩))
    (by intro ax hax
        rcases List.mem_cons.mp hax with h | h
        · subst h; exact ⟨by norm_num [mkAxisSym], by norm_num [mkAxisSym]⟩
        · rcases List.mem_cons.mp h with h2 | h2
          · subst h2; exact ⟨by norm_num [mkAxisSym], by norm_num [mkAxisSym]⟩
          · simp [PMFTXY] at h2)
    rfl

/-! ### Claim C5: the two-particle PMFTXY scenario -/

/-- The two points of the scenario: (-1,0,0) and (1,0,0). -/
def c5pts : List V3 := [⟨-1, 0, 0⟩, ⟨1, 0, 0⟩]

/-- The engine state the scenario must produce: one count in the bin
holding displacement (2,0) and one in the bin holding (-2,0). -/
def c5Engine : Engine :=
  ⟨[mkAxisSym (18/5) 100, mkAxisSym (21/5) 110], true, ⟨2, 1⟩, ⟨0, 0, 0⟩,
   some ⟨[(8525, 1), (2475, 1)], ⟨16, 16, 0, true⟩, 2, 2⟩⟩

lemma c5_bonds :
    ballQuery ⟨16, 16, 0, true⟩ (c5pts.map fun q => V3.add q ⟨0, 0, 0⟩)
      c5pts (153/5) true
    = [⟨0, 1, ⟨2, 0, 0⟩⟩, ⟨1, 0, ⟨-2, 0, 0⟩⟩] := by
  norm_num [ballQuery, Box.wrap, wrapCoord, V3.sub, V3.add, V3.normSq, c5pts,
    List.range_succ, List.filterMap_cons,
    show ([⟨-1, 0, 0⟩, ⟨1, 0, 0⟩] : List V3).getD 0 ⟨0, 0, 0⟩ = ⟨-1, 0, 0⟩ from rfl,
    show ([⟨-1, 0, 0⟩, ⟨1, 0, 0⟩] : List V3).getD 1 ⟨0, 0, 0⟩ = ⟨1, 0, 0⟩ from rfl]

lemma c5_hist :
    binPairs [mkAxisSym (18/5) 100, mkAxisSym (21/5) 110]
      (xyTransform [Rot2.ident, Rot2.ident])
      [⟨0, 1, ⟨2, 0, 0⟩⟩, ⟨1, 0, ⟨-2, 0, 0⟩⟩] []
    = [(8525, 1), (2475, 1)] := by
  norm_num [binPairs, binOne, digitizeAll, Axis.digitize, Axis.width,
    mkAxisSym, xyTransform, Rot2.ident, flatIndex, prodBins, histAdd,
    show ([Rot2.ident, Rot2.ident] : List Rot2).getD 0 Rot2.ident = Rot2.ident from rfl,
    show ([Rot2.ident, Rot2.ident] : List Rot2).getD 1 Rot2.ident = Rot2.ident from rfl,
    show ⌊(700 : ℚ) / 9⌋₊ = 77 from by
      rw [Nat.floor_eq_iff (by norm_num)]; norm_num,
    show ⌊(200 : ℚ) / 9⌋₊ = 22 from by
      rw [Nat.floor_eq_iff (by norm_num)]; norm_num]

lemma c5_compute :
    (PMFTXY (18/5) (21/5) 100 110).computeBall ⟨16, 16, 0, true⟩ c5pts c5pts
      (xyTransform [Rot2.ident, Rot2.ident]) (153/5) true true
    = Except.ok c5Engine := by
  have hval : (PMFTXY (18/5) (21/5) 100 110).validate ⟨16, 16, 0, true⟩
      c5pts c5pts true = true := by
    simp [Engine.validate, PMFTXY, c5pts]
  simp only [Engine.computeBall, Engine.compute, hval, if_true, PMFTXY]
  rw [c5_bonds, c5_hist]
  rfl

/-- C5: two points at (-1,0,0) and (1,0,0) in a 16 x 16 periodic square
with zero orientations, binned by PMFTXY(max_x = 3.6, max_y = 4.2,
bins = (100, 110)): the compute() call succeeds; the x-axis bins 77 and 22
contain the displacements +2 and -2 and the y-axis bin 55 contains 0;
exactly the two flattened bins 77*110+55 and 22*110+55 hold count 1 and
every other bin holds count 0; and the pmft field is +infinity exactly
away from those two bins (so the two occupied bins are finite). -/
theorem pmftxy_two_particles :
    ((PMFTXY (18/5) (21/5) 100 110).computeBall ⟨16, 16, 0, true⟩ c5pts c5pts
        (xyTransform [Rot2.ident, Rot2.ident]) (153/5) true true
      = Except.ok c5Engine)
    ∧ (mkAxisSym (18/5) 100).digitize 2 = some 77
    ∧ (mkAxisSym (18/5) 100).digitize (-2) = some 22
    ∧ (mkAxisSym (21/5) 110).digitize 0 = some 55
    ∧ (∀ i : ℕ, c5Engine.countAt i
        = if i = 77 * 110 + 55 ∨ i = 22 * 110 + 55 then 1 else 0)
    ∧ (∀ i : ℕ, c5Engine.pmftAt i = PmftVal.infinity
        ↔ ¬(i = 77 * 110 + 55 ∨ i = 22 * 110 + 55)) := by
  refine ⟨c5_compute, ?_, ?_, ?_, ?_, ?_⟩
  · norm_num [Axis.digitize, Axis.width, mkAxisSym,
      show ⌊(700 : ℚ) / 9⌋₊ = 77 from by
        rw [Nat.floor_eq_iff (by norm_num)]; norm_num]
  · norm_num [Axis.digitize, Axis.width, mkAxisSym,
      show ⌊(200 : ℚ) / 9⌋₊ = 22 from by
        rw [Nat.floor_eq_iff (by norm_num)]; norm_num]
  · norm_num [Axis.digitize, Axis.width, mkAxisSym]
  · intro i
    have hc : c5Engine.countAt i = histGet [(8525, 1), (2475, 1)] i := rfl
    rw [hc]
    by_cases h1 : i = 8525
    · subst h1; norm_num [histGet]
    · by_cases h2 : i = 2475
      · subst h2; norm_num [histGet]
      · have h1' : ¬(8525 = i) := fun hh => h1 hh.symm
        have h2' : ¬(2475 = i) := fun hh => h2 hh.symm
        norm_num [histGet, h1', h2', h1, h2]
  · intro i
    have hp : c5Engine.pmftAt i
        = pmftValue (histGet [(8525, 1), (2475, 1)] i)
            (binVolume c5Engine.axes) (Box.volume ⟨16, 16, 0, true⟩) 2 2 ⟨2, 1⟩ := rfl
    rw [hp]
    by_cases h1 : i = 8525
    · subst h1
      norm_num [histGet, pmftValue]
      exact fun h => PmftVal.noConfusion h
    · by_cases h2 : i = 2475
      · subst h2
        norm_num [histGet, pmftValue]
        exact fun h => PmftVal.noConfusion h
      · have h1' : ¬(8525 = i) := fun hh => h1 hh.symm
        have h2' : ¬(2475 = i) := fun hh => h2 hh.symm
        norm_num [histGet, pmftValue, h1', h2', h1, h2]

/-! ### Claim C8: the PMFTXYZ shift-vector dead-pixel scenario -/

/-- The number of finite (non-infinity) values of the pmft field. -/
def finitePmftCount (e : Engine) : ℕ :=
  (List.range (prodBins e.axes)).countP fun i =>
    decide (e.pmftAt i ≠ PmftVal.infinity)

/-- The two points of the scenario: (1,1,1) and (0,0,0) in a cube of side 3. -/
def c8pts : List V3 := [⟨1, 1, 1⟩, ⟨0, 0, 0⟩]

/-- The unshifted engine after compute: no bond is in range, so the
histogram is empty. -/
def c8aEngine : Engine :=
  ⟨[mkAxisSym (1/2) 3, mkAxisSym (1/2) 3, mkAxisSym (1/2) 3], false, ⟨8, 2⟩,
   ⟨0, 0, 0⟩, some ⟨[], ⟨3, 3, 3, false⟩, 2, 2⟩⟩

/-- The engine shifted by (1,1,1) after compute: exactly one bond lands in
the central bin (1,1,1), flattened index 13. -/
def c8bEngine : Engine :=
  ⟨[mkAxisSym (1/2) 3, mkAxisSym (1/2) 3, mkAxisSym (1/2) 3], false, ⟨8, 2⟩,
   ⟨1, 1, 1⟩, some ⟨[(13, 1)], ⟨3, 3, 3, false⟩, 2, 2⟩⟩

lemma c8a_bonds :
    ballQuery ⟨3, 3, 3, false⟩ (c8pts.map fun q => V3.add q ⟨0, 0, 0⟩)
      c8pts (3/4) true = [] := by
  norm_num [ballQuery, Box.wrap, wrapCoord, V3.sub, V3.add, V3.normSq, c8pts,
    List.range_succ, List.filterMap_cons,
    show ([⟨1, 1, 1⟩, ⟨0, 0, 0⟩] : List V3).getD 0 ⟨0, 0, 0⟩ = ⟨1, 1, 1⟩ from rfl,
    show ([⟨1, 1, 1⟩, ⟨0, 0, 0⟩] : List V3).getD 1 ⟨0, 0, 0⟩ = ⟨0, 0, 0⟩ from rfl]

lemma c8b_bonds :
    ballQuery ⟨3, 3, 3, false⟩ (c8pts.map fun q => V3.add q ⟨1, 1, 1⟩)
      c8pts (3/4) true = [⟨1, 0, ⟨0, 0, 0⟩⟩] := by
  norm_num [ballQuery, Box.wrap, wrapCoord, V3.sub, V3.add, V3.normSq, c8pts,
    List.range_succ, List.filterMap_cons,
    show ([⟨1, 1, 1⟩, ⟨0, 0, 0⟩] : List V3).getD 0 ⟨0, 0, 0⟩ = ⟨1, 1, 1⟩ from rfl,
    show ([⟨1, 1, 1⟩, ⟨0, 0, 0⟩] : List V3).getD 1 ⟨0, 0, 0⟩ = ⟨0, 0, 0⟩ from rfl]

lemma c8b_hist :
    binPairs [mkAxisSym (1/2) 3, mkAxisSym (1/2) 3, mkAxisSym (1/2) 3]
      (xyzTransform [Quat.ident, Quat.ident]) [⟨1, 0, ⟨0, 0, 0⟩⟩] []
    = [(13, 1)] := by
  norm_num [binPairs, binOne, digitizeAll, Axis.digitize, Axis.width,
    mkAxisSym, xyzTransform, Quat.ident, Quat.conj, Quat.mul, Quat.rotate,
    flatIndex, prodBins, histAdd,
    show ([Quat.ident, Quat.ident] : List Quat).getD 1 Quat.ident = Quat.ident from rfl,
    show ⌊(3 : ℚ) / 2⌋₊ = 1 from by
      rw [Nat.floor_eq_iff (by norm_num)]; norm_num]

lemma c8a_compute :
    (PMFTXYZ (1/2) (1/2) (1/2) 3 3 3 ⟨0, 0, 0⟩).computeBall ⟨3, 3, 3, false⟩
      c8pts c8pts (xyzTransform [Quat.ident, Quat.ident]) (3/4) true true
    = Except.ok c8aEngine := by
  have hval : (PMFTXYZ (1/2) (1/2) (1/2) 3 3 3 ⟨0, 0, 0⟩).validate ⟨3, 3, 3, false⟩
      c8pts c8pts true = true := by
    simp [Engine.validate, PMFTXYZ]
  simp only [Engine.computeBall, Engine.compute, hval, if_true, PMFTXYZ]
  rw [c8a_bonds]
  rfl

lemma c8b_compute :
    (PMFTXYZ (1/2) (1/2) (1/2) 3 3 3 ⟨1, 1, 1⟩).computeBall ⟨3, 3, 3, false⟩
      c8pts c8pts (xyzTransform [Quat.ident, Quat.ident]) (3/4) true true
    = Except.ok c8bEngine := by
  have hval : (PMFTXYZ (1/2) (1/2) (1/2) 3 3 3 ⟨1, 1, 1⟩).validate ⟨3, 3, 3, false⟩
      c8pts c8pts true = true := by
    simp [Engine.validate, PMFTXYZ]
  simp only [Engine.computeBall, Engine.compute, hval, if_true, PMFTXYZ]
  rw [c8b_bonds, c8b_hist]
  rfl

/-- C8: the degenerate two-point PMFTXYZ scenario with max extents 0.5 and
3 bins per axis.  With a zero shift vector the pair displacement is out of
range of every bin, so the pmft field has zero finite values (the dead
pixel); with shift vector (1,1,1) the re-centered query finds exactly one
in-range bond and the pmft field has exactly one finite value. -/
theorem pmftxyz_shift_dead_pixel :
    ((PMFTXYZ (1/2) (1/2) (1/2) 3 3 3 ⟨0, 0, 0⟩).computeBall ⟨3, 3, 3, false⟩
        c8pts c8pts (xyzTransform [Quat.ident, Quat.ident]) (3/4) true true
      = Except.ok c8aEngine)
    ∧ ((PMFTXYZ (1/2) (1/2) (1/2) 3 3 3 ⟨1, 1, 1⟩).computeBall ⟨3, 3, 3, false⟩
        c8pts c8pts (xyzTransform [Quat.ident, Quat.ident]) (3/4) true true
      = Except.ok c8bEngine)
    ∧ finitePmftCount c8aEngine = 0
    ∧ finitePmftCount c8bEngine = 1 :=
  ⟨c8a_compute, c8b_compute, by decide, by decide⟩

/-! ### Claim C6: agreement of the XY and XYZ variants on in-plane data -/

lemma getD_all_eq {α : Type} {l : List α} {c : α}
    (h : ∀ a ∈ l, a = c) (i : ℕ) : l.getD i c = c := by
  induction l generalizing i with
  | nil => cases i <;> rfl
  | cons a t ih =>
      cases i with
      | zero => exact h a (by simp)
      | succ m =>
          simp only [List.getD_cons_succ]
          exact ih (fun x hx => h x (by simp [hx])) m

lemma xyTransform_ident {o2 : List Rot2} (ho2 : ∀ r ∈ o2, r = Rot2.ident)
    (i j : ℕ) (d : V3) : xyTransform o2 i j d = [d.x, d.y] := by
  simp only [xyTransform]
  rw [getD_all_eq ho2]
  norm_num [Rot2.ident]

lemma Quat.rotate_conj_ident (v : V3) :
    Quat.rotate (Quat.conj Quat.ident) v = v := by
  obtain ⟨x, y, z⟩ := v
  simp only [Quat.rotate, Quat.conj, Quat.ident, Quat.mul, V3.mk.injEq]
  refine ⟨by ring, by ring, by ring⟩

lemma xyzTransform_ident {o3 : List Quat} (ho3 : ∀ q ∈ o3, q = Quat.ident)
    (i j : ℕ) (d : V3) : xyzTransform o3 i j d = [d.x, d.y, d.z] := by
  simp only [xyzTransform]
  rw [getD_all_eq ho3, Quat.rotate_conj_ident]

lemma digitize_zero_center (mz : ℚ) (nz : ℕ) (hmz : 0 < mz) (hnz : 0 < nz) :
    (mkAxisSym mz nz).digitize 0 = some (nz / 2) := by
  have hrange : (mkAxisSym mz nz).lo ≤ (0 : ℚ) ∧ (0 : ℚ) < (mkAxisSym mz nz).hi := by
    constructor <;> simp [mkAxisSym] <;> linarith
  rw [Axis.digitize, if_pos hrange]
  congr 1
  have hnzq : ((nz : ℚ)) ≠ 0 := Nat.cast_ne_zero.mpr hnz.ne'
  have harg : ((0 : ℚ) - (mkAxisSym mz nz).lo) / (mkAxisSym mz nz).width
      = (nz : ℚ) / 2 := by
    simp only [mkAxisSym, Axis.width]
    field_simp
    ring
  rw [harg, show ((2 : ℚ)) = ((2 : ℕ) : ℚ) from by norm_num,
    Nat.floor_div_nat ((nz : ℚ)) 2, Nat.floor_natCast]

lemma digitizeAll_pair_shape {ax ay : Axis} {vx vy : ℚ} {l : List ℕ}
    (h : digitizeAll [ax, ay] [vx, vy] = some l) :
    ∃ bx bY, ax.digitize vx = some bx ∧ ay.digitize vy = some bY
      ∧ l = [bx, bY] := by
  simp only [digitizeAll] at h
  rcases h1 : ax.digitize vx with _ | bx <;> rw [h1] at h
  · exact absurd h (by simp)
  · rcases h2 : ay.digitize vy with _ | bY <;> rw [h2] at h
    · exact absurd h (by simp)
    · injection h with h
      exact ⟨bx, bY, rfl, rfl, h.symm⟩

lemma digitizeAll3_of_pair (ax ay : Axis) (mz : ℚ) (nz : ℕ)
    (hmz : 0 < mz) (hnz : 0 < nz) (vx vy : ℚ) :
    digitizeAll [ax, ay, mkAxisSym mz nz] [vx, vy, 0]
    = (digitizeAll [ax, ay] [vx, vy]).map fun l => l ++ [nz / 2] := by
  simp only [digitizeAll, digitize_zero_center mz nz hmz hnz]
  rcases ax.digitize vx with _ | bx <;> rcases ay.digitize vy with _ | bY <;> simp

lemma binPairs_slice (ax ay : Axis) (mz : ℚ) (nz : ℕ)
    (hmz : 0 < mz) (hnz : 0 < nz)
    (o2 : List Rot2) (o3 : List Quat)
    (ho2 : ∀ r ∈ o2, r = Rot2.ident) (ho3 : ∀ q ∈ o3, q = Quat.ident)
    (bonds : List Bond) (hz : ∀ b ∈ bonds, b.d.z = 0)
    (h2 h3 : List (ℕ × ℚ))
    (hinv : ∀ a : ℕ, histGet h3 (a * nz + nz / 2) = histGet h2 a) :
    ∀ a : ℕ,
      histGet (binPairs [ax, ay, mkAxisSym mz nz] (xyzTransform o3) bonds h3)
          (a * nz + nz / 2)
        = histGet (binPairs [ax, ay] (xyTransform o2) bonds h2) a := by
  induction bonds generalizing h2 h3 with
  | nil => exact hinv
  | cons b bs ih =>
      show ∀ a : ℕ,
        histGet (binPairs _ _ bs (binOne [ax, ay, mkAxisSym mz nz]
          (xyzTransform o3) b h3)) _
        = histGet (binPairs _ _ bs (binOne [ax, ay] (xyTransform o2) b h2)) a
      refine ih (fun x hx => hz x (by simp [hx])) _ _ ?_
      intro a
      have hbz : b.d.z = 0 := hz b (by simp)
      have htr3 : xyzTransform o3 b.qi b.pj b.d = [b.d.x, b.d.y, 0] := by
        rw [xyzTransform_ident ho3, hbz]
      have htr2 : xyTransform o2 b.qi b.pj b.d = [b.d.x, b.d.y] := by
        rw [xyTransform_ident ho2]
      rcases hd2 : digitizeAll [ax, ay] [b.d.x, b.d.y] with _ | l
      · rw [binOne_none h3 (by
            rw [htr3, digitizeAll3_of_pair ax ay mz nz hmz hnz, hd2]; rfl),
          binOne_none h2 (by rw [htr2, hd2])]
        exact hinv a
      · obtain ⟨bx, bY, hbx, hby, hl⟩ := digitizeAll_pair_shape hd2
        subst hl
        rw [binOne_some h3 [bx, bY, nz / 2] (by
            rw [htr3, digitizeAll3_of_pair ax ay mz nz hmz hnz, hd2]; rfl),
          binOne_some h2 [bx, bY] (by rw [htr2, hd2])]
        rw [histGet_histAdd, histGet_histAdd, hinv a]
        congr 1
        have hflat3 : flatIndex [ax, ay, mkAxisSym mz nz] [bx, bY, nz / 2]
            = (bx * ay.n + bY) * nz + nz / 2 := by
          simp [flatIndex, prodBins, mkAxisSym]
          ring
        have hflat2 : flatIndex [ax, ay] [bx, bY] = bx * ay.n + bY := by
          simp [flatIndex, prodBins]
        rw [hflat3, hflat2]
        by_cases hcond : a = bx * ay.n + bY
        · subst hcond; simp
        · have hcond3 : ¬(a * nz + nz / 2 = (bx * ay.n + bY) * nz + nz / 2) := by
            intro hEq
            exact hcond (Nat.eq_of_mul_eq_mul_right hnz (by omega))
          rw [if_neg hcond3, if_neg hcond]

/-- C6: binning the same in-plane (z = 0) data with identity orientations
through PMFTXY and through PMFTXYZ (same x/y extents and bin counts, any z
extent) and slicing the XYZ z-axis at its center bin nz/2 reproduces XY's
bin_counts exactly; and on that slice the two pmft fields agree up to the
closed-form scale factor (L_z / dz) * (2 pi / 8 pi^2) built from the extra
length measure of the z bin and the ratio of the two variants' angular
phase-space constants. -/
theorem pmft_xy_xyz_agreement
    (mx my mz L1 L2 Lz2 L3 : ℚ) (nx ny nz : ℕ)
    (pts qpts : List V3) (o2 : List Rot2) (o3 : List Quat) (bonds : List Bond)
    (r2 r3 : Engine)
    (hmx : 0 < mx) (hmy : 0 < my) (hmz : 0 < mz)
    (hnx : 0 < nx) (hny : 0 < ny) (hnz : 0 < nz)
    (hL1 : 0 < L1) (hL2 : 0 < L2) (hL3 : 0 < L3)
    (hpts : pts ≠ []) (hqpts : qpts ≠ [])
    (hzp : ∀ p ∈ pts, p.z = 0) (hzq : ∀ p ∈ qpts, p.z = 0)
    (ho2 : ∀ r ∈ o2, r = Rot2.ident) (ho3 : ∀ q ∈ o3, q = Quat.ident)
    (hbz : ∀ b ∈ bonds, b.d.z = 0)
    (hc2 : (PMFTXY mx my nx ny).compute ⟨L1, L2, Lz2, true⟩ pts qpts
        (xyTransform o2) bonds true = Except.ok r2)
    (hc3 : (PMFTXYZ mx my mz nx ny nz ⟨0, 0, 0⟩).compute ⟨L1, L2, L3, false⟩
        pts qpts (xyzTransform o3) bonds true = Except.ok r3) :
    (∀ a : ℕ, r3.countAt (a * nz + nz / 2) = r2.countAt a)
    ∧ (∀ a : ℕ,
        (r2.pmftAt a = PmftVal.infinity
          ∧ r3.pmftAt (a * nz + nz / 2) = PmftVal.infinity)
        ∨ (∃ dd : PiTerm, r2.pmftAt a = PmftVal.negLog dd
            ∧ r3.pmftAt (a * nz + nz / 2)
              = PmftVal.negLog (PiTerm.mul
                  (PiTerm.mul ⟨L3 / (mkAxisSym mz nz).width, 0⟩
                    (PiTerm.div ⟨2, 1⟩ ⟨8, 2⟩)) dd))) := by
  have hval2 : (PMFTXY mx my nx ny).validate ⟨L1, L2, Lz2, true⟩ pts qpts true
      = true := by
    simp only [Engine.validate, PMFTXY, if_true, Bool.and_eq_true,
      List.all_eq_true, beq_iff_eq]
    refine ⟨?_, ?_⟩ <;> first | exact hzq | exact ⟨trivial, hzp⟩ | exact hzp | trivial
  have hval3 : (PMFTXYZ mx my mz nx ny nz ⟨0, 0, 0⟩).validate
      ⟨L1, L2, L3, false⟩ pts qpts true = true := by
    simp [Engine.validate, PMFTXYZ]
  rw [Engine.compute] at hc2 hc3
  rw [hval2] at hc2
  rw [hval3] at hc3
  simp only [if_true, reduceIte] at hc2 hc3
  injection hc2 with hc2
  injection hc3 with hc3
  subst hc2
  subst hc3
  have hslice := binPairs_slice (mkAxisSym mx nx) (mkAxisSym my ny) mz nz hmz hnz
    o2 o3 ho2 ho3 bonds hbz [] [] (fun a => rfl)
  simp only [Engine.countAt, Engine.binCounts, Engine.pmftAt, Engine.pmft,
    PMFTXY, PMFTXYZ]
  constructor
  · intro a
    exact hslice a
  · intro a
    have hcnt3 :
        histGet (binPairs [mkAxisSym mx nx, mkAxisSym my ny, mkAxisSym mz nz]
          (xyzTransform o3) bonds []) (a * nz + nz / 2)
        = histGet (binPairs [mkAxisSym mx nx, mkAxisSym my ny]
            (xyTransform o2) bonds []) a := hslice a
    by_cases hc : histGet (binPairs [mkAxisSym mx nx, mkAxisSym my ny]
        (xyTransform o2) bonds []) a = 0
    · left
      constructor
      · rw [pmftValue, if_pos hc]
      · rw [pmftValue, if_pos (hcnt3.trans hc)]
    · right
      refine ⟨PiTerm.div
          ⟨histGet (binPairs [mkAxisSym mx nx, mkAxisSym my ny]
              (xyTransform o2) bonds []) a
            * Box.volume ⟨L1, L2, Lz2, true⟩
            / (binVolume [mkAxisSym mx nx, mkAxisSym my ny]
              * (pts.length : ℚ) * (qpts.length : ℚ)), 0⟩ ⟨2, 1⟩, ?_, ?_⟩
      · rw [pmftValue, if_neg hc]
      · rw [pmftValue, if_neg (fun h0 => hc (hcnt3.symm.trans h0)), hcnt3]
        congr 1
        have hnxq : ((nx : ℚ)) ≠ 0 := Nat.cast_ne_zero.mpr hnx.ne'
        have hnyq : ((ny : ℚ)) ≠ 0 := Nat.cast_ne_zero.mpr hny.ne'
        have hnzq : ((nz : ℚ)) ≠ 0 := Nat.cast_ne_zero.mpr hnz.ne'
        have hmxq : mx ≠ 0 := hmx.ne'
        have hmyq : my ≠ 0 := hmy.ne'
        have hmzq : mz ≠ 0 := hmz.ne'
        have hrq : ((pts.length : ℚ)) ≠ 0 :=
          Nat.cast_ne_zero.mpr (fun h0 => hpts (List.length_eq_zero.mp h0))
        have hqq : ((qpts.length : ℚ)) ≠ 0 :=
          Nat.cast_ne_zero.mpr (fun h0 => hqpts (List.length_eq_zero.mp h0))
        simp only [PiTerm.mul, PiTerm.div, PiTerm.mk.injEq, binVolume,
          Box.volume, Axis.width, mkAxisSym, List.map_cons, List.map_nil,
          List.prod_cons, List.prod_nil]
        constructor
        · field_simp
          ring
        · decide

/-- The computed XY engine of the C6 witness scenario: a single bond with
displacement (1/2, 0, 0) lands in flattened bin 3 of the 2 x 2 grid. -/
def c6wXY : Engine :=
  ⟨[mkAxisSym 1 2, mkAxisSym 1 2], true, ⟨2, 1⟩, ⟨0, 0, 0⟩,
   some ⟨[(3, 1)], ⟨10, 10, 1, true⟩, 1, 1⟩⟩

/-- The computed XYZ engine of the C6 witness scenario: the same bond lands
in flattened bin 7 = (1*2+1)*2 + 1 of the 2 x 2 x 2 grid. -/
def c6wXYZ : Engine :=
  ⟨[mkAxisSym 1 2, mkAxisSym 1 2, mkAxisSym 1 2], false, ⟨8, 2⟩, ⟨0, 0, 0⟩,
   some ⟨[(7, 1)], ⟨10, 10, 10, false⟩, 1, 1⟩⟩

lemma c6w_hist2 :
    binPairs [mkAxisSym 1 2, mkAxisSym 1 2] (xyTransform [Rot2.ident])
      [⟨0, 0, ⟨1/2, 0, 0⟩⟩] [] = [(3, 1)] := by
  norm_num [binPairs, binOne, digitizeAll, Axis.digitize, Axis.width,
    mkAxisSym, xyTransform, Rot2.ident, flatIndex, prodBins, histAdd,
    show ([Rot2.ident] : List Rot2).getD 0 Rot2.ident = Rot2.ident from rfl,
    show ⌊(3 : ℚ) / 2⌋₊ = 1 from by
      rw [Nat.floor_eq_iff (by norm_num)]; norm_num]

lemma c6w_hist3 :
    binPairs [mkAxisSym 1 2, mkAxisSym 1 2, mkAxisSym 1 2]
      (xyzTransform [Quat.ident]) [⟨0, 0, ⟨1/2, 0, 0⟩⟩] [] = [(7, 1)] := by
  norm_num [binPairs, binOne, digitizeAll, Axis.digitize, Axis.width,
    mkAxisSym, xyzTransform, Quat.ident, Quat.conj, Quat.mul, Quat.rotate,
    flatIndex, prodBins, histAdd,
    show ([Quat.ident] : List Quat).getD 0 Quat.ident = Quat.ident from rfl,
    show ⌊(3 : ℚ) / 2⌋₊ = 1 from by
      rw [Nat.floor_eq_iff (by norm_num)]; norm_num]

lemma c6w_compute2 :
    (PMFTXY 1 1 2 2).compute ⟨10, 10, 1, true⟩ [⟨0, 0, 0⟩] [⟨3, 0, 0⟩]
      (xyTransform [Rot2.ident]) [⟨0, 0, ⟨1/2, 0, 0⟩⟩] true
    = Except.ok c6wXY := by
  have hval : (PMFTXY 1 1 2 2).validate ⟨10, 10, 1, true⟩ [⟨0, 0, 0⟩]
      [⟨3, 0, 0⟩] true = true := by
    simp [Engine.validate, PMFTXY]
  simp only [Engine.compute, hval, if_true, PMFTXY]
  rw [c6w_hist2]
  rfl

lemma c6w_compute3 :
    (PMFTXYZ 1 1 1 2 2 2 ⟨0, 0, 0⟩).compute ⟨10, 10, 10, false⟩ [⟨0, 0, 0⟩]
      [⟨3, 0, 0⟩] (xyzTransform [Quat.ident]) [⟨0, 0, ⟨1/2, 0, 0⟩⟩] true
    = Except.ok c6wXYZ := by
  have hval : (PMFTXYZ 1 1 1 2 2 2 ⟨0, 0, 0⟩).validate ⟨10, 10, 10, false⟩
      [⟨0, 0, 0⟩] [⟨3, 0, 0⟩] true = true := by
    simp [Engine.validate, PMFTXYZ]
  simp only [Engine.compute, hval, if_true, PMFTXYZ]
  rw [c6w_hist3]
  rfl

/-- Witness for C6: the agreement theorem applied to one in-plane bond in a
2 x 2 (x 2) grid, read at flattened XY bin 3 and XYZ slice bin 3*2 + 1. -/
theorem pmft_xy_xyz_agreement_witness :
    (c6wXYZ.countAt (3 * 2 + 2 / 2) = c6wXY.countAt 3)
    ∧ ((c6wXY.pmftAt 3 = PmftVal.infinity
        ∧ c6wXYZ.pmftAt (3 * 2 + 2 / 2) = PmftVal.infinity)
      ∨ (∃ dd : PiTerm, c6wXY.pmftAt 3 = PmftVal.negLog dd
          ∧ c6wXYZ.pmftAt (3 * 2 + 2 / 2)
            = PmftVal.negLog (PiTerm.mul
                (PiTerm.mul ⟨10 / (mkAxisSym 1 2).width, 0⟩
                  (PiTerm.div ⟨2, 1⟩ ⟨8, 2⟩)) dd))) :=
  ⟨(pmft_xy_xyz_agreement 1 1 1 10 10 1 10 2 2 2 [⟨0, 0, 0⟩] [⟨3, 0, 0⟩]
      [Rot2.ident] [Quat.ident] [⟨0, 0, ⟨1/2, 0, 0⟩⟩] c6wXY c6wXYZ
      (by norm_num) (by norm_num) (by norm_num) (by norm_num) (by norm_num)
      (by norm_num) (by norm_num) (by norm_num) (by norm_num)
      (by simp) (by simp) (by simp) (by simp) (by simp) (by simp) (by simp)
      c6w_compute2 c6w_compute3).1 3,
   (pmft_xy_xyz_agreement 1 1 1 10 10 1 10 2 2 2 [⟨0, 0, 0⟩] [⟨3, 0, 0⟩]
      [Rot2.ident] [Quat.ident] [⟨0, 0, ⟨1/2, 0, 0⟩⟩] c6wXY c6wXYZ
      (by norm_num) (by norm_num) (by norm_num) (by norm_num) (by norm_num)
      (by norm_num) (by norm_num) (by norm_num) (by norm_num)
      (by simp) (by simp) (by simp) (by simp) (by simp) (by simp) (by simp)
      c6w_compute2 c6w_compute3).2 3⟩
